import Mathlib

/-!
Verification of the text-normalization core of `md2docx.py`: the Markdown
line preprocessor (`preprocess_markdown`), the table-cell normalizer
(`clean_table_cells`), and the error-handling shape of `main`'s conversion
step.

Python strings are modelled as Lean `String` (a structure wrapping
`List Char`); the Python string primitives the program uses (`strip`,
`startswith`, `endswith`, `in`, `len`, `"\n".join`) are given explicit
executable definitions over `String.data`.
-/

namespace Md2docx

/-- Whitespace as recognised by Python `str.strip()` and by the regex class
`\s`.  On every character the program can meet, the two Python notions
coincide, so a single predicate models both (ASCII cases listed; the program
never distinguishes the exotic Unicode whitespace, where the two Python sets
also coincide). -/
def pySpace (c : Char) : Bool :=
  c == ' ' || c == '\t' || c == '\n' || c == '\r' || c == '\x0b' || c == '\x0c'

/-- Char list with its maximal `pySpace` suffix removed (Python `rstrip`). -/
def rstripChars (cs : List Char) : List Char :=
  (cs.reverse.dropWhile pySpace).reverse

/-- Python `str.strip()` on the underlying char list. -/
def stripChars (cs : List Char) : List Char :=
  rstripChars (cs.dropWhile pySpace)

/-- Python `s.strip()`. -/
def pyStrip (s : String) : String := ⟨stripChars s.data⟩

/-- Test that the char list (second argument) begins with the pattern
(first argument). -/
def strLeads : List Char → List Char → Bool
  | [], _ => true
  | _ :: _, [] => false
  | p :: ps, c :: cs => p == c && strLeads ps cs

/-- Python `s.startswith(pat)`. -/
def pyStartsWith (s pat : String) : Bool := strLeads pat.data s.data

/-- Python `s.endswith(pat)`. -/
def pyEndsWith (s pat : String) : Bool := strLeads pat.data.reverse s.data.reverse

/-- Python `c in s` for a single character `c`. -/
def pyContains (s : String) (c : Char) : Bool := s.data.contains c

/-- Python `len(s)` (number of code points). -/
def pyLen (s : String) : Nat := s.data.length

/-! ## Line Preprocessor (`preprocess_markdown`, src/md2docx.py lines 35-82)

Input lines are the file's lines with the trailing newline removed
(`line.rstrip("\n")` after `readlines()`); the output list is what the
program joins with `"\n"` into the temporary file. -/

/-- `is_block_start` from `preprocess_markdown`: the stripped line is empty
or starts with a heading, blockquote, code-fence, or display-math marker. -/
def is_block_start (line : String) : Bool :=
  let s := pyStrip line
  pyStartsWith s "#" || pyStartsWith s ">" ||
  pyStartsWith s "```" || pyStartsWith s "~~~" ||
  pyStartsWith s "$$" || s == ""

/-- `cur.strip().startswith("|")`: the table-row test of the preprocessor. -/
def isTableRow (cur : String) : Bool := pyStartsWith (pyStrip cur) "|"

/-- The next-line test of the dense-line rule:
`next_line.strip().startswith(("#", ">", "```", "~~~", "$$"))`.
Unlike `is_block_start` it does not treat a stripped-empty line specially. -/
def nextMarker (next : String) : Bool :=
  let t := pyStrip next
  pyStartsWith t "#" || pyStartsWith t ">" ||
  pyStartsWith t "```" || pyStartsWith t "~~~" || pyStartsWith t "$$"

/-- The dense-line predicate:
`("$" in cur) or ("：" in cur and len(cur) > 40) or ("," in cur and len(cur) > 80)`. -/
def dense (cur : String) : Bool :=
  pyContains cur '$' ||
  (pyContains cur '：' && decide (pyLen cur > 40)) ||
  (pyContains cur ',' && decide (pyLen cur > 80))

/-- The per-line emission of the preprocessor loop body: a block-start
non-table-row line is emitted unchanged; otherwise the dense-line rule may
append two trailing spaces (`cur = cur + "  "`). -/
def emitLine (cur next : String) : String :=
  if is_block_start cur && !isTableRow cur then cur
  else if cur != "" && next != "" && !nextMarker next
          && dense cur && !pyEndsWith cur "  " then cur ++ "  "
  else cur

/-- The preprocessor loop: `prev_blank` is the state variable (initially
`True`); before a block-start non-table-row line an empty separator line is
emitted when the state is false and the line is non-empty; every line is then
emitted through `emitLine`, and the state becomes "emitted line is empty". -/
def ppAux : Bool → List String → List String
  | _, [] => []
  | prevBlank, cur :: rest =>
    (if is_block_start cur && !isTableRow cur && !prevBlank && cur != ""
     then [""] else []) ++
    emitLine cur (rest.headD "") ::
      ppAux (emitLine cur (rest.headD "") == "") rest

/-- `preprocess_markdown`: the full pass over the line list. -/
def preprocess_markdown (lines : List String) : List String := ppAux true lines

/-- Instrumented preprocessor: identical recursion to `ppAux`, but each
emitted line is tagged `true` when it is an inserted blank separator and
`false` when it is the emission of an input line. -/
def ppAuxT : Bool → List String → List (Bool × String)
  | _, [] => []
  | prevBlank, cur :: rest =>
    (if is_block_start cur && !isTableRow cur && !prevBlank && cur != ""
     then [(true, "")] else []) ++
    (false, emitLine cur (rest.headD "")) ::
      ppAuxT (emitLine cur (rest.headD "") == "") rest

/-- The per-line emissions alone (no separators): line `i` of the input is
emitted as `emitLine lines[i] lines[i+1]` (empty next line at the end). -/
def emitAll : List String → List String
  | [] => []
  | cur :: rest => emitLine cur (rest.headD "") :: emitAll rest

/-! ## The two cell regexes (src/md2docx.py lines 115-116)

`math_inline_re = re.compile(r'^\s\$(.+)\$\s*$')`
`math_block_re  = re.compile(r'^\s\$\$(.+)\$\$\s*$')`

Both demand exactly ONE leading whitespace character (`\s`, not `\s*`).
`(.+)` is greedy and `.` does not match a newline; `\s*$` accepts exactly an
all-whitespace tail (the `$` anchor's match-before-a-final-newline case is
subsumed because `\n` is whitespace).  Hence after the leading `\s\$` (resp.
`\s\$\$`) has been consumed, the regex matches iff removing the maximal
whitespace suffix of the remainder leaves a list ending in `$` (resp. `$$`)
whose preceding body is non-empty and newline-free; the greedy capture is
that body. -/

/-- Tail of the inline regex after `^\s\$`: match `(.+)\$\s*$`. -/
def inlineRest (rest : List Char) : Option String :=
  match rest.reverse.dropWhile pySpace with
  | '$' :: revBody =>
    if revBody.reverse.isEmpty || revBody.reverse.contains '\n' then none
    else some ⟨revBody.reverse⟩
  | _ => none

/-- Tail of the block regex after `^\s\$\$`: match `(.+)\$\$\s*$`. -/
def blockRest (rest : List Char) : Option String :=
  match rest.reverse.dropWhile pySpace with
  | '$' :: '$' :: revBody =>
    if revBody.reverse.isEmpty || revBody.reverse.contains '\n' then none
    else some ⟨revBody.reverse⟩
  | _ => none

/-- `math_inline_re.match(s)`, returning the capture group on success. -/
def math_inline_match (s : String) : Option String :=
  match s.data with
  | c :: '$' :: rest => if pySpace c then inlineRest rest else none
  | _ => none

/-- `math_block_re.match(s)`, returning the capture group on success. -/
def math_block_match (s : String) : Option String :=
  match s.data with
  | c :: '$' :: '$' :: rest => if pySpace c then blockRest rest else none
  | _ => none

/-- `cleaned` as computed per cell in `clean_table_cells`:
`m1.group(1).strip()` if the inline pattern matches, else
`m2.group(1).strip()` if the block pattern matches, else `None`. -/
def cleaned_of (full_text : String) : Option String :=
  match math_inline_match full_text with
  | some g => some (pyStrip g)
  | none =>
    match math_block_match full_text with
    | some g => some (pyStrip g)
    | none => none

/-! ## Cell Normalizer (`clean_table_cells`, src/md2docx.py lines 107-149)

The python-docx objects are modelled structurally: a run carries text and
directly-applied font properties; a paragraph carries its runs and an
optional alignment; a cell carries its paragraphs; a table its grid of
cells. `p.text` reads as the concatenation of the run texts; assigning
`p.text = t` replaces the paragraph content with a single run carrying `t`
(paragraph-level formatting such as alignment is preserved). -/

/-- Paragraph alignment (`WD_ALIGN_PARAGRAPH`); the program only uses LEFT. -/
inductive Alignment where
  | left
  | center
  | right
deriving DecidableEq

/-- Directly-applied run font properties (`r.font.name`, `r.font.size`);
the size is in points (`Pt`). -/
structure Font where
  name : Option String := none
  size : Option Nat := none
deriving DecidableEq

structure Run where
  text : String
  font : Font := {}
deriving DecidableEq

structure Paragraph where
  runs : List Run
  alignment : Option Alignment := none
deriving DecidableEq

/-- Concatenation of run texts. -/
def runsText : List Run → String
  | [] => ""
  | r :: rs => r.text ++ runsText rs

/-- `p.text` (read). -/
def paraText (p : Paragraph) : String := runsText p.runs

structure Cell where
  paragraphs : List Paragraph
deriving DecidableEq

/-- Python `"\n".join(texts)`. -/
def joinNL : List String → String
  | [] => ""
  | [s] => s
  | s :: rest => s ++ "\n" ++ joinNL rest

/-- `full_text = "\n".join(p.text for p in cell.paragraphs).strip()`. -/
def cellFullText (cell : Cell) : String :=
  pyStrip (joinNL (cell.paragraphs.map paraText))

/-- `r.clear()`: removes the run content, keeps its formatting. -/
def clearRun (r : Run) : Run := { r with text := "" }

/-- `p.text = t` (write): all paragraph content replaced by a single run
carrying `t`; paragraph-level formatting (alignment) is preserved. -/
def setParaText (p : Paragraph) (t : String) : Paragraph :=
  { runs := [{ text := t }], alignment := p.alignment }

/-- The math-branch rewrite of one paragraph: clear every run, then assign
`p.text = cleaned`. -/
def mathRewriteP (p : Paragraph) (t : String) : Paragraph :=
  setParaText { p with runs := p.runs.map clearRun } t

/-- The `=`-branch run formatting: `r.font.name = "Consolas"`,
`r.font.size = Pt(10)`. -/
def formatRun (r : Run) : Run :=
  { r with font := { name := some "Consolas", size := some 10 } }

/-- The `=`-branch paragraph formatting: every run reformatted and
`p.alignment = WD_ALIGN_PARAGRAPH.LEFT`. -/
def eqFormatP (p : Paragraph) : Paragraph :=
  { runs := p.runs.map formatRun, alignment := some Alignment.left }

/-- The per-cell body of `clean_table_cells`, factored over the already
computed `full_text` of the cell. -/
def clean_cell_core (full_text : String) (cell : Cell) : Cell :=
  match cleaned_of full_text with
  | some t => { paragraphs := cell.paragraphs.map (fun p => mathRewriteP p t) }
  | none =>
    if pyStartsWith full_text "=" then
      { paragraphs := cell.paragraphs.map eqFormatP }
    else cell

/-- One cell of `clean_table_cells`' triple loop. -/
def clean_cell (cell : Cell) : Cell := clean_cell_core (cellFullText cell) cell

structure Table where
  rows : List (List Cell)
deriving DecidableEq

/-- `clean_table_cells` over the document's tables (the document is its
list of tables for the purpose of the cell pass; saving is outside the
model). -/
def clean_table_cells (tables : List Table) : List Table :=
  tables.map fun t => { rows := t.rows.map fun row => row.map clean_cell }

/-! ## `main`'s conversion step (src/md2docx.py lines 171-185)

The `try/except subprocess.CalledProcessError/finally` around the Pandoc
call is modelled by a small statement language with Python's
exception-propagation semantics. -/

/-- Exceptions relevant to the conversion step. -/
inductive Exc where
  | calledProcessError
  | systemExit (code : Nat)
  | docError
deriving DecidableEq

/-- Primitive actions of the conversion step. -/
inductive Act where
  | convert
  | cleanCells
  | printOk
  | printFail
  | printErr
  | unlink
deriving DecidableEq

/-- Which exception (if any) each action raises. `convert`
(`subprocess.run(..., check=True)`) raises `CalledProcessError` exactly when
the converter exits non-zero; `clean_table_cells` may raise a document
error; `os.unlink` is wrapped in its own `try/except Exception: pass`, so
the unlink action never raises; printing never raises. -/
structure Env where
  convertExc : Option Exc := none
  cleanExc : Option Exc := none
deriving DecidableEq

def actExc (env : Env) : Act → Option Exc
  | .convert => env.convertExc
  | .cleanCells => env.cleanExc
  | _ => none

/-- Statements of the modelled Python fragment. -/
inductive Stmt where
  | act (a : Act)
  | sysExit (n : Nat)
  | seq (s1 s2 : Stmt)
  | tryCatchFinally (body handler fin : Stmt)

/-- Execution: the trace of attempted actions and the escaping exception.
`except subprocess.CalledProcessError` catches only that exception; the
`finally` block always runs, after which any pending exception (including
the handler's `SystemExit` from `sys.exit(1)`) resumes propagating. -/
def exec (env : Env) : Stmt → List Act × Option Exc
  | .act a => ([a], actExc env a)
  | .sysExit n => ([], some (.systemExit n))
  | .seq s1 s2 =>
    match exec env s1 with
    | (t1, some e) => (t1, some e)
    | (t1, none) =>
      let r := exec env s2
      (t1 ++ r.1, r.2)
  | .tryCatchFinally body handler fin =>
    let rb := exec env body
    let after : List Act × Option Exc :=
      match rb.2 with
      | some .calledProcessError =>
        let rh := exec env handler
        (rb.1 ++ rh.1, rh.2)
      | e => (rb.1, e)
    let rf := exec env fin
    (after.1 ++ rf.1, if rf.2.isSome then rf.2 else after.2)

/-- The `try/except/finally` tail of `main` (lines 172-185): convert, then
clean the table cells, then print the confirmation; on `CalledProcessError`
print the failure message and the error and `sys.exit(1)`; finally unlink
the temporary preprocessed file. -/
def mainTail : Stmt :=
  .tryCatchFinally
    (.seq (.act .convert) (.seq (.act .cleanCells) (.act .printOk)))
    (.seq (.act .printFail) (.seq (.act .printErr) (.sysExit 1)))
    (.act .unlink)

/-- Interpreter exit status determined by the exception escaping `main`:
none means a normal return (status 0), `SystemExit n` exits with `n`, any
other uncaught exception makes the interpreter exit 1 with a traceback. -/
def exitCodeOf : Option Exc → Nat
  | none => 0
  | some (.systemExit n) => n
  | some _ => 1

/-! ## Statement-side definitions used by the claims -/

/-- The inline-math shape the program actually implements: exactly one
leading whitespace character, `$`, a non-empty newline-free captured group,
`$`, optional trailing whitespace, covering the whole string. -/
def InlineShape (s g : String) : Prop :=
  ∃ (c : Char) (tail : List Char),
    s.data = c :: '$' :: (g.data ++ '$' :: tail) ∧
    pySpace c = true ∧ g.data ≠ [] ∧ '\n' ∉ g.data ∧
    ∀ x ∈ tail, pySpace x = true

/-- The inline-math shape exactly as claim C6 states it: OPTIONAL leading
whitespace, `$`, one-or-more captured characters, `$`, optional trailing
whitespace. -/
def inlineShapeClaimed (s g : String) : Prop :=
  ∃ (lead tail : List Char),
    s.data = lead ++ '$' :: (g.data ++ '$' :: tail) ∧
    (∀ x ∈ lead, pySpace x = true) ∧ g.data ≠ [] ∧
    ∀ x ∈ tail, pySpace x = true

/-- Claim C6's pattern description, read as a proposition about the
program's inline matcher. -/
def ClaimC6Prop : Prop :=
  ∀ s g : String, math_inline_match s = some g ↔ inlineShapeClaimed s g

/-- Claim C4 as stated: a line gains two trailing spaces iff it is
non-empty, the next line is non-empty and not a block-start line (the
spec's notion of block-start line, under which a whitespace-only line IS a
block start), the dense predicate holds, and it does not already end in two
spaces. -/
def ClaimC4Prop : Prop :=
  ∀ cur next : String,
    emitLine cur next = cur ++ "  " ↔
      (cur ≠ "" ∧ next ≠ "" ∧ is_block_start next = false ∧
       dense cur = true ∧ pyEndsWith cur "  " = false)

/-- Shape invariant of the instrumented preprocessor output, parametrised
by the `prev_blank` state holding before the remaining output: an inserted
separator (tag `true`) appears only when the state is `false`, is blank,
and is immediately followed by the non-empty block-start line that
triggered it. -/
inductive SepShape : Bool → List (Bool × String) → Prop where
  | nil : ∀ pb, SepShape pb []
  | line : ∀ (pb : Bool) (v : String) (tail : List (Bool × String)),
      SepShape (v == "") tail → SepShape pb ((false, v) :: tail)
  | sep : ∀ (v : String) (tail : List (Bool × String)),
      v ≠ "" → is_block_start v = true → SepShape (v == "") tail →
      SepShape false ((true, "") :: (false, v) :: tail)

/-- A one-paragraph, one-run cell carrying the given text. -/
def mkCellOf (t : String) : Cell := ⟨[⟨[⟨t, {}⟩], none⟩]⟩

/-- Concrete cell for the `=SUM(A1:A3)` scenario. -/
def exCellEq : Cell := mkCellOf "=SUM(A1:A3)"

/-- Concrete cell for the `plain text` scenario. -/
def exCellPlain : Cell := mkCellOf "plain text"

/-- Concrete one-cell table. -/
def exTable : Table := ⟨[[mkCellOf "plain text"]]⟩

/-- Environment in which the converter exits non-zero. -/
def envFail : Env := ⟨some Exc.calledProcessError, none⟩

/-! ## Helper lemmas -/

theorem data_append (a b : String) : (a ++ b).data = a.data ++ b.data := rfl

theorem dropWhile_head_false :
    ∀ (cs : List Char) (c : Char) (l : List Char),
      cs.dropWhile pySpace = c :: l → pySpace c = false := by
  intro cs
  induction cs with
  | nil => intro c l h; simp [List.dropWhile] at h
  | cons x xs ih =>
    intro c l h
    by_cases hx : pySpace x = true
    · rw [List.dropWhile_cons_of_pos hx] at h
      exact ih c l h
    · rw [List.dropWhile_cons_of_neg hx] at h
      cases h
      simpa using hx

theorem dropWhile_all_append (a b : List Char)
    (h : ∀ x ∈ a, pySpace x = true) :
    (a ++ b).dropWhile pySpace = b.dropWhile pySpace := by
  induction a with
  | nil => simp
  | cons x xs ih =>
    have hx : pySpace x = true := h x (by simp)
    rw [List.cons_append, List.dropWhile_cons_of_pos hx]
    exact ih (fun y hy => h y (by simp [hy]))

theorem dropWhile_nil_all (cs : List Char)
    (h : cs.dropWhile pySpace = []) : ∀ x ∈ cs, pySpace x = true := by
  induction cs with
  | nil => simp
  | cons x xs ih =>
    by_cases hx : pySpace x = true
    · rw [List.dropWhile_cons_of_pos hx] at h
      intro y hy
      rcases List.mem_cons.mp hy with hy | hy
      · rw [hy]; exact hx
      · exact ih h y hy
    · rw [List.dropWhile_cons_of_neg hx] at h
      cases h

theorem dropWhile_append_cons (a b : List Char) (c : Char) (l : List Char)
    (h : a.dropWhile pySpace = c :: l) :
    (a ++ b).dropWhile pySpace = c :: (l ++ b) := by
  induction a with
  | nil => simp [List.dropWhile] at h
  | cons x xs ih =>
    by_cases hx : pySpace x = true
    · rw [List.dropWhile_cons_of_pos hx] at h
      rw [List.cons_append, List.dropWhile_cons_of_pos hx]
      exact ih h
    · rw [List.dropWhile_cons_of_neg hx] at h
      cases h
      rw [List.cons_append, List.dropWhile_cons_of_neg hx]

theorem stripChars_decomp (cs : List Char) :
    ∃ w, stripChars cs ++ w = cs.dropWhile pySpace := by
  unfold stripChars rstripChars
  refine ⟨((cs.dropWhile pySpace).reverse.takeWhile pySpace).reverse, ?_⟩
  rw [← List.reverse_append, List.takeWhile_append_dropWhile, List.reverse_reverse]

theorem stripChars_head_false (cs : List Char) (c : Char) (l : List Char)
    (h : stripChars cs = c :: l) : pySpace c = false := by
  obtain ⟨w, hw⟩ := stripChars_decomp cs
  rw [h] at hw
  exact dropWhile_head_false cs c (l ++ w) (by rw [← hw]; simp)

theorem inline_strip_none (s : String) :
    math_inline_match (pyStrip s) = none := by
  unfold math_inline_match
  split
  · rename_i c rest heq
    have hc : pySpace c = false :=
      stripChars_head_false s.data c ('$' :: rest) heq
    simp [hc]
  · rfl

theorem block_strip_none (s : String) :
    math_block_match (pyStrip s) = none := by
  unfold math_block_match
  split
  · rename_i c rest heq
    have hc : pySpace c = false :=
      stripChars_head_false s.data c ('$' :: '$' :: rest) heq
    simp [hc]
  · rfl

theorem cleaned_of_strip_none (s : String) :
    cleaned_of (pyStrip s) = none := by
  unfold cleaned_of
  rw [inline_strip_none, block_strip_none]

theorem cleaned_fullText_none (cell : Cell) :
    cleaned_of (cellFullText cell) = none :=
  cleaned_of_strip_none (joinNL (cell.paragraphs.map paraText))

theorem rstripChars_append_pair (cs : List Char) :
    rstripChars (cs ++ [' ', ' ']) = rstripChars cs := by
  unfold rstripChars
  rw [List.reverse_append]
  rw [dropWhile_all_append [' ', ' '].reverse cs.reverse (by decide)]

theorem stripChars_append_pair (cs : List Char) :
    stripChars (cs ++ [' ', ' ']) = stripChars cs := by
  unfold stripChars
  rcases hd : cs.dropWhile pySpace with _ | ⟨c, l⟩
  · have h1 : (cs ++ [' ', ' ']).dropWhile pySpace = [] := by
      rw [dropWhile_all_append cs [' ', ' '] (dropWhile_nil_all cs hd)]
      decide
    rw [h1]
  · rw [dropWhile_append_cons cs [' ', ' '] c l hd]
    show rstripChars ((c :: l) ++ [' ', ' ']) = rstripChars (c :: l)
    exact rstripChars_append_pair (c :: l)

theorem pyStrip_append_pair (s : String) :
    pyStrip (s ++ "  ") = pyStrip s := by
  unfold pyStrip
  rw [data_append]
  have h : "  ".data = [' ', ' '] := rfl
  rw [h, stripChars_append_pair]

theorem is_block_start_append_pair (s : String) :
    is_block_start (s ++ "  ") = is_block_start s := by
  unfold is_block_start
  rw [pyStrip_append_pair]

theorem endsWith_pair_append (s : String) :
    pyEndsWith (s ++ "  ") "  " = true := by
  unfold pyEndsWith
  rw [data_append]
  have h : "  ".data = [' ', ' '] := rfl
  rw [h, List.reverse_append]
  rfl

theorem strLeads_cons_cons (p : Char) (ps : List Char) (c : Char)
    (cs : List Char) :
    strLeads (p :: ps) (c :: cs) = ((p == c) && strLeads ps cs) := rfl

theorem string_ne_of_data_cons (s : String) (c : Char) (l : List Char)
    (h : s.data = c :: l) : s ≠ "" := by
  intro he
  rw [he] at h
  cases h

theorem tableRow_not_block (cur : String) (h : isTableRow cur = true) :
    is_block_start cur = false := by
  unfold isTableRow pyStartsWith at h
  rcases hd : (pyStrip cur).data with _ | ⟨c, rest⟩
  · rw [hd] at h
    cases h
  · rw [hd] at h
    have hpipe : "|".data = ['|'] := rfl
    rw [hpipe, strLeads_cons_cons] at h
    have hc : c = '|' := by
      rcases Bool.and_eq_true_iff.mp h with ⟨h1, _⟩
      exact (beq_iff_eq.mp h1).symm
    subst hc
    unfold is_block_start pyStartsWith
    dsimp only
    rw [hd]
    have hne : ¬(pyStrip cur = "") := by
      intro he
      rw [he] at hd
      cases hd
    simp [strLeads_cons_cons, hne]

theorem runsText_map_clearRun (rs : List Run) :
    runsText (rs.map clearRun) = "" := by
  induction rs with
  | nil => rfl
  | cons r rest ih => simp [runsText, clearRun, ih]

theorem runsText_map_formatRun (rs : List Run) :
    runsText (rs.map formatRun) = runsText rs := by
  induction rs with
  | nil => rfl
  | cons r rest ih => simp [runsText, formatRun, ih]

theorem paraText_eqFormatP (p : Paragraph) :
    paraText (eqFormatP p) = paraText p :=
  runsText_map_formatRun p.runs

theorem string_append_empty (s : String) : s ++ "" = s := by
  apply String.ext
  rw [data_append]
  simp

theorem paraText_setParaText (p : Paragraph) (t : String) :
    paraText (setParaText p t) = t := by
  simp [paraText, setParaText, runsText, string_append_empty]

theorem paraText_mathRewriteP (p : Paragraph) (t : String) :
    paraText (mathRewriteP p t) = t :=
  paraText_setParaText _ t

theorem emitLine_self_or_append (cur next : String) :
    emitLine cur next = cur ∨ emitLine cur next = cur ++ "  " := by
  unfold emitLine
  split
  · exact Or.inl rfl
  · split
    · exact Or.inr rfl
    · exact Or.inl rfl

theorem string_ne_append_pair (cur : String) : cur ≠ cur ++ "  " := by
  intro h
  have h2 : cur.data.length = (cur ++ "  ").data.length := by rw [← h]
  rw [data_append, List.length_append] at h2
  simp at h2

theorem contains_eq_false_iff (l : List Char) (a : Char) :
    l.contains a = false ↔ a ∉ l := by
  induction l with
  | nil => simp
  | cons x xs ih =>
    simp only [List.contains_cons, Bool.or_eq_false_iff, List.mem_cons,
      not_or, ih, beq_eq_false_iff_ne, ne_eq]

theorem inline_iff (s g : String) :
    math_inline_match s = some g ↔ InlineShape s g := by
  constructor
  · intro h
    unfold math_inline_match at h
    split at h
    · rename_i c rest heq
      by_cases hc : pySpace c = true
      · rw [if_pos hc] at h
        unfold inlineRest at h
        split at h
        · rename_i revBody heq2
          by_cases hbad :
              (revBody.reverse.isEmpty || revBody.reverse.contains '\n') = true
          · rw [if_pos hbad] at h; cases h
          · rw [if_neg hbad] at h
            injection h with hg
            subst hg
            rw [Bool.or_eq_true] at hbad
            push_neg at hbad
            have hne : revBody.reverse ≠ [] := by
              simpa using hbad.1
            have hnc : '\n' ∉ revBody.reverse :=
              (contains_eq_false_iff _ _).mp (by simpa using hbad.2)
            refine ⟨c, (rest.reverse.takeWhile pySpace).reverse, ?_, hc,
              hne, hnc, ?_⟩
            · rw [heq]
              have h3 : rest.reverse =
                  rest.reverse.takeWhile pySpace ++ ('$' :: revBody) := by
                rw [← heq2, List.takeWhile_append_dropWhile]
              have h4 : rest =
                  (rest.reverse.takeWhile pySpace ++ ('$' :: revBody)).reverse := by
                rw [← h3, List.reverse_reverse]
              have h5 : rest = revBody.reverse ++
                  '$' :: (rest.reverse.takeWhile pySpace).reverse := by
                conv_lhs => rw [h4]
                simp [List.reverse_append, List.reverse_cons, List.append_assoc]
              conv_lhs => rw [h5]
            · intro x hx
              exact List.mem_takeWhile_imp (List.mem_reverse.mp hx)
        · rename_i heq2
          cases h
      · rw [if_neg hc] at h
        cases h
    · cases h
  · rintro ⟨c, tail, hdata, hc, hg, hnl, htail⟩
    unfold math_inline_match
    rw [hdata]
    show (if pySpace c = true then inlineRest (g.data ++ '$' :: tail)
          else none) = some g
    rw [if_pos hc]
    unfold inlineRest
    have h1 : (g.data ++ '$' :: tail).reverse.dropWhile pySpace =
        '$' :: g.data.reverse := by
      rw [List.reverse_append, List.reverse_cons, List.append_assoc]
      rw [dropWhile_all_append tail.reverse (['$'] ++ g.data.reverse)
        (fun x hx => htail x (List.mem_reverse.mp hx))]
      rw [List.singleton_append, List.dropWhile_cons_of_neg (by decide)]
    rw [h1]
    show (if (g.data.reverse.reverse.isEmpty ||
              g.data.reverse.reverse.contains '\n') = true then none
          else some ⟨g.data.reverse.reverse⟩) = some g
    rw [List.reverse_reverse]
    have hne : g.data.isEmpty = false := by simpa using hg
    have hnc : g.data.contains '\n' = false :=
      (contains_eq_false_iff _ _).mpr hnl
    rw [hne, hnc]
    rfl

theorem ppAux_eq_mapT (lines : List String) :
    ∀ b, ppAux b lines = (ppAuxT b lines).map Prod.snd := by
  induction lines with
  | nil => intro b; rfl
  | cons cur rest ih =>
    intro b
    unfold ppAux ppAuxT
    by_cases hcond :
        (is_block_start cur && !isTableRow cur && !b && cur != "") = true
    · rw [if_pos hcond, if_pos hcond]
      simp [ih]
    · rw [if_neg hcond, if_neg hcond]
      simp [ih]

theorem ppAuxT_filterMap (lines : List String) :
    ∀ b, (ppAuxT b lines).filterMap
        (fun e => if e.1 then none else some e.2) = emitAll lines := by
  induction lines with
  | nil => intro b; rfl
  | cons cur rest ih =>
    intro b
    unfold ppAuxT emitAll
    by_cases hcond :
        (is_block_start cur && !isTableRow cur && !b && cur != "") = true
    · rw [if_pos hcond]
      simp [List.filterMap_cons, ih]
    · rw [if_neg hcond]
      simp [List.filterMap_cons, ih]

theorem ppAuxT_sep_blank (lines : List String) :
    ∀ b, ∀ e ∈ ppAuxT b lines, e.1 = true → e.2 = "" := by
  induction lines with
  | nil => intro b e he; simp [ppAuxT] at he
  | cons cur rest ih =>
    intro b e he hflag
    unfold ppAuxT at he
    rcases List.mem_append.mp he with he | he
    · by_cases hcond :
          (is_block_start cur && !isTableRow cur && !b && cur != "") = true
      · rw [if_pos hcond] at he
        have : e = (true, "") := by simpa using he
        rw [this]
      · rw [if_neg hcond] at he
        simp at he
    · rcases List.mem_cons.mp he with he | he
      · rw [he] at hflag
        simp at hflag
      · exact ih _ e he hflag

theorem sepShape_ppAuxT (lines : List String) :
    ∀ b, SepShape b (ppAuxT b lines) := by
  induction lines with
  | nil => intro b; exact SepShape.nil b
  | cons cur rest ih =>
    intro b
    unfold ppAuxT
    by_cases hcond :
        (is_block_start cur && !isTableRow cur && !b && cur != "") = true
    · have hcond2 := hcond
      simp only [Bool.and_eq_true, Bool.not_eq_true', bne_iff_ne, ne_eq]
        at hcond2
      obtain ⟨⟨⟨h1, htr⟩, hb⟩, hcur⟩ := hcond2
      have hemit : emitLine cur (rest.headD "") = cur := by
        unfold emitLine
        rw [if_pos (by simp [h1, htr])]
      rw [if_pos hcond, hemit, List.singleton_append, hb]
      exact SepShape.sep cur _ hcur h1 (ih (cur == ""))
    · rw [if_neg hcond, List.nil_append]
      exact SepShape.line b _ _ (ih _)

theorem sepShape_props {pb : Bool} {l : List (Bool × String)}
    (h : SepShape pb l) :
    ∀ (j : Nat) (v : Bool × String), l[j]? = some v → v.1 = true →
      v.2 = "" ∧ (j = 0 → pb = false) ∧
      (∀ k, j = k + 1 → ∃ w, l[k]? = some w ∧ w.2 ≠ "") ∧
      (∃ w, l[j+1]? = some w ∧ w.1 = false ∧ w.2 ≠ "" ∧
        is_block_start w.2 = true) := by
  induction h with
  | nil pb =>
    intro j v hv _
    simp at hv
  | line pb v0 tail htail ih =>
    intro j v hv hflag
    cases j with
    | zero =>
      rw [List.getElem?_cons_zero] at hv
      injection hv with hv
      rw [← hv] at hflag
      simp at hflag
    | succ ja =>
      rw [List.getElem?_cons_succ] at hv
      obtain ⟨hval, hzero, hpred, hsucc⟩ := ih ja v hv hflag
      refine ⟨hval, fun hk => absurd hk (Nat.succ_ne_zero ja), ?_, ?_⟩
      · intro kb hk2
        have hkk : ja = kb := Nat.succ.inj hk2
        subst hkk
        cases ja with
        | zero =>
          have hz := hzero rfl
          refine ⟨(false, v0), by rw [List.getElem?_cons_zero], ?_⟩
          simpa using hz
        | succ jc =>
          obtain ⟨w, hw1, hw2⟩ := hpred jc rfl
          refine ⟨w, ?_, hw2⟩
          rw [List.getElem?_cons_succ]
          exact hw1
      · obtain ⟨w, hw⟩ := hsucc
        refine ⟨w, ?_, hw.2⟩
        rw [List.getElem?_cons_succ]
        exact hw.1
  | sep v0 tail hv0 hbs htail ih =>
    intro j v hv hflag
    cases j with
    | zero =>
      rw [List.getElem?_cons_zero] at hv
      injection hv with hv
      subst hv
      refine ⟨rfl, fun _ => rfl, ?_, ?_⟩
      · intro ka hk
        exact absurd hk.symm (Nat.succ_ne_zero ka)
      · refine ⟨(false, v0), ?_, rfl, hv0, hbs⟩
        rw [List.getElem?_cons_succ, List.getElem?_cons_zero]
    | succ ja =>
      cases ja with
      | zero =>
        rw [List.getElem?_cons_succ, List.getElem?_cons_zero] at hv
        injection hv with hv
        rw [← hv] at hflag
        simp at hflag
      | succ jb =>
        rw [List.getElem?_cons_succ, List.getElem?_cons_succ] at hv
        obtain ⟨hval, hzero, hpred, hsucc⟩ := ih jb v hv hflag
        refine ⟨hval, fun hk => absurd hk (Nat.succ_ne_zero _), ?_, ?_⟩
        · intro kc hk3
          have hkk : jb + 1 = kc := Nat.succ.inj hk3
          subst hkk
          cases jb with
          | zero =>
            refine ⟨(false, v0), ?_, hv0⟩
            rw [List.getElem?_cons_succ, List.getElem?_cons_zero]
          | succ jd =>
            obtain ⟨w, hw1, hw2⟩ := hpred jd rfl
            refine ⟨w, ?_, hw2⟩
            rw [List.getElem?_cons_succ, List.getElem?_cons_succ]
            exact hw1
        · obtain ⟨w, hw⟩ := hsucc
          refine ⟨w, ?_, hw.2⟩
          rw [List.getElem?_cons_succ, List.getElem?_cons_succ]
          exact hw.1

theorem emitLine_append_iff (cur next : String) :
    emitLine cur next = cur ++ "  " ↔
      (is_block_start cur = false ∧ cur ≠ "" ∧ next ≠ "" ∧
       nextMarker next = false ∧ dense cur = true ∧
       pyEndsWith cur "  " = false) := by
  constructor
  · intro h
    unfold emitLine at h
    split at h
    · exact absurd h (string_ne_append_pair cur)
    · rename_i hblock
      split at h
      · rename_i hcond
        simp only [Bool.and_eq_true, bne_iff_ne, ne_eq, Bool.not_eq_true']
          at hcond
        obtain ⟨⟨⟨⟨hc1, hc2⟩, hc3⟩, hc4⟩, hc5⟩ := hcond
        have hbs : is_block_start cur = false := by
          by_cases htr : isTableRow cur = true
          · exact tableRow_not_block cur htr
          · have htr2 : isTableRow cur = false := by simpa using htr
            cases hbb : is_block_start cur with
            | false => rfl
            | true =>
              exact absurd (by simp [hbb, htr2] :
                (is_block_start cur && !isTableRow cur) = true) hblock
        exact ⟨hbs, hc1, hc2, hc3, hc4, hc5⟩
      · exact absurd h (string_ne_append_pair cur)
  · rintro ⟨hbs, h1, h2, h3, h4, h5⟩
    unfold emitLine
    rw [if_neg (by simp [hbs]), if_pos (by simp [h1, h2, h3, h4, h5])]

theorem emitLine_idem (cur next : String) :
    emitLine (emitLine cur next) next = emitLine cur next := by
  rcases emitLine_self_or_append cur next with h | h
  · rw [h]
    exact h
  · have hconds := (emitLine_append_iff cur next).mp h
    rw [h]
    unfold emitLine
    rw [if_neg (by simp [is_block_start_append_pair, hconds.1]),
      if_neg (by simp [endsWith_pair_append])]

theorem exec_finally_unlink (env : Env) (b hd : Stmt) :
    Act.unlink ∈ (exec env (Stmt.tryCatchFinally b hd (Stmt.act Act.unlink))).1 := by
  simp only [exec, actExc]
  exact List.mem_append_right _ (by simp)

theorem mapParaText_eqFormat (ps : List Paragraph) :
    (ps.map eqFormatP).map paraText = ps.map paraText := by
  induction ps with
  | nil => rfl
  | cons p rest ih => simp [paraText_eqFormatP, ih]

theorem mapParaText_mathRewrite (ps : List Paragraph) (t : String) :
    (ps.map (fun p => mathRewriteP p t)).map paraText =
      ps.map (fun _ => t) := by
  induction ps with
  | nil => rfl
  | cons p rest ih => simp [paraText_mathRewriteP, ih]

/-! ## The claims -/

/-- C1 (code-bug evidence): the spec's round trip fails on the code.  A cell
whose full text is `" $x+1$ "` is left entirely unchanged by `clean_cell`
(not rewritten to `"x+1"`), and a cell whose full text is `"$$a=b$$"` is
also left unchanged (not rewritten to `"a=b"`): the cell text is stripped
before matching, and both regexes demand one leading whitespace character,
so neither can match the stripped text. -/
theorem c1_roundTrip_fails_eval :
    clean_cell (mkCellOf " $x+1$ ") = mkCellOf " $x+1$ " ∧
    clean_cell (mkCellOf "$$a=b$$") = mkCellOf "$$a=b$$" ∧
    cellFullText (mkCellOf " $x+1$ ") = "$x+1$" ∧
    math_inline_match "$x+1$" = none ∧
    math_block_match "$$a=b$$" = none := by
  decide

/-- C2: the math-rewrite branch of `clean_table_cells` is unreachable.
After stripping, the cell's full text never begins with a whitespace
character, so neither regex (each requiring exactly one leading whitespace
character) ever matches; consequently `clean_cell` never changes any cell's
text content, and a cell whose full text does not start with `=` is left
entirely unchanged. -/
theorem c2_math_branch_unreachable :
    (∀ s : String, math_inline_match (pyStrip s) = none ∧
      math_block_match (pyStrip s) = none) ∧
    (∀ cell : Cell, cleaned_of (cellFullText cell) = none ∧
      (clean_cell cell).paragraphs.map paraText =
        cell.paragraphs.map paraText ∧
      (pyStartsWith (cellFullText cell) "=" = false →
        clean_cell cell = cell)) := by
  refine ⟨fun s => ⟨inline_strip_none s, block_strip_none s⟩, fun cell => ?_⟩
  have hnone := cleaned_fullText_none cell
  refine ⟨hnone, ?_, ?_⟩
  · simp only [clean_cell, clean_cell_core, hnone]
    by_cases hs : pyStartsWith (cellFullText cell) "=" = true
    · simp only [hs, if_true]
      exact mapParaText_eqFormat cell.paragraphs
    · simp [hs]
  · intro hs
    simp [clean_cell, clean_cell_core, hnone, hs]

/-- Witness for C2 at a concrete cell. -/
theorem c2_witness :
    pyStartsWith (cellFullText exCellPlain) "=" = false ∧
    clean_cell exCellPlain = exCellPlain :=
  ⟨by decide, (c2_math_branch_unreachable.2 exCellPlain).2.2 (by decide)⟩

/-- C3 (code-bug evidence): a table row IS altered by the preprocessor.
The line `"| $x$ |"` (a table row: its stripped content starts with `|`)
followed by a non-empty line gets two trailing spaces appended by the
dense-line rule, because the table-row exemption guards only the
(separator) block-start branch, which a table row can never reach anyway. -/
theorem c3_tableRow_altered_eval :
    preprocess_markdown ["| $x$ |", "y"] = ["| $x$ |  ", "y"] ∧
    isTableRow "| $x$ |" = true := by
  decide

/-- C4 (counterexample): the claimed iff fails as stated.  With the current
line `"$a$"` and next line `" "` the code appends two trailing spaces
(`emitLine "$a$" " " = "$a$  "`), yet the next line `" "` IS a block-start
line in the spec's sense (stripped-empty), so the claimed right-hand side
is false. -/
theorem c4_counterexample : ¬ ClaimC4Prop := by
  intro h
  have h2 := (h "$a$" " ").mp (by decide)
  exact absurd h2.2.2.1 (by decide)

/-- C4 (amended): a line gains exactly two trailing spaces iff it is not a
block-start line, it is non-empty, the next line is non-empty, the next
line's stripped content does not start with `#`, `>`, triple-backtick,
`~~~` or `$$` (a whitespace-only next line does NOT block the append), the
dense predicate holds, and the line does not already end with two spaces;
and the rule is idempotent: applying it to the already-modified line
appends nothing further. -/
theorem c4_amended_dense_rule (cur next : String) :
    (emitLine cur next = cur ++ "  " ↔
      (is_block_start cur = false ∧ cur ≠ "" ∧ next ≠ "" ∧
       nextMarker next = false ∧ dense cur = true ∧
       pyEndsWith cur "  " = false)) ∧
    emitLine (emitLine cur next) next = emitLine cur next :=
  ⟨emitLine_append_iff cur next, emitLine_idem cur next⟩

/-- Witness for C4's amended rule at a concrete dense line. -/
theorem c4_amended_witness : emitLine "$x$" "y" = "$x$" ++ "  " :=
  (c4_amended_dense_rule "$x$" "y").1.mpr (by decide)

/-- C5: in the instrumented preprocessor output (initial `prev_blank`
state `true`), every inserted separator is blank, is never the first
emitted line, follows a non-blank emitted line, and is immediately followed
by the non-empty block-start line that triggered it (in particular the rule
never emits two consecutive inserted blanks); and the plain output is the
projection of the instrumented one. -/
theorem c5_separator_rule (lines : List String) (j : Nat)
    (v : Bool × String) (hv : (ppAuxT true lines)[j]? = some v)
    (hflag : v.1 = true) :
    v.2 = "" ∧ 0 < j ∧
    (∀ k, j = k + 1 →
      ∃ w, (ppAuxT true lines)[k]? = some w ∧ w.2 ≠ "") ∧
    (∃ w, (ppAuxT true lines)[j+1]? = some w ∧ w.1 = false ∧ w.2 ≠ "" ∧
      is_block_start w.2 = true) ∧
    preprocess_markdown lines = (ppAuxT true lines).map Prod.snd := by
  obtain ⟨hval, hzero, hpred, hsucc⟩ :=
    sepShape_props (sepShape_ppAuxT lines true) j v hv hflag
  refine ⟨hval, ?_, hpred, hsucc, ppAux_eq_mapT lines true⟩
  rcases Nat.eq_zero_or_pos j with hj | hj
  · exact absurd (hzero hj) (by simp)
  · exact hj

/-- Witness for C5: in `["a", "# h"]` a separator is inserted at index 1. -/
theorem c5_witness :
    (ppAuxT true ["a", "# h"])[1]? = some ((true, "") : Bool × String) ∧
    ((true, "") : Bool × String).2 = "" ∧ 0 < 1 :=
  ⟨by decide,
   (c5_separator_rule ["a", "# h"] 1 (true, "") (by decide) rfl).1,
   (c5_separator_rule ["a", "# h"] 1 (true, "") (by decide) rfl).2.1⟩

/-- C6 (counterexample): the inline pattern does NOT have optional leading
whitespace.  On `"$x$"` (no leading whitespace) the claimed shape holds
with capture `"x"`, but the program's matcher returns `none`. -/
theorem c6_counterexample : ¬ ClaimC6Prop := by
  intro h
  have hshape : inlineShapeClaimed "$x$" "x" := by
    refine ⟨[], [], by decide, ?_, by decide, ?_⟩
    · intro x hx
      simp at hx
    · intro x hx
      simp at hx
  exact absurd ((h "$x$" "x").mpr hshape) (by decide)

/-- C6 (amended): the inline pattern requires EXACTLY ONE leading
whitespace character: the matcher succeeds with capture `g` iff the string
is one whitespace character, `$`, a non-empty newline-free `g`, `$`, then
optional trailing whitespace; the inline pattern is tried before the block
pattern and on an inline match `cleaned` is the capture trimmed; and on a
match the math branch sets every paragraph's text to the cleaned capture. -/
theorem c6_amended_inline_pattern :
    (∀ s g : String, math_inline_match s = some g ↔ InlineShape s g) ∧
    (∀ s g : String, math_inline_match s = some g →
      cleaned_of s = some (pyStrip g)) ∧
    (∀ (cell : Cell) (ft g : String), math_inline_match ft = some g →
      (clean_cell_core ft cell).paragraphs.map paraText =
        cell.paragraphs.map (fun _ => pyStrip g)) := by
  refine ⟨inline_iff, ?_, ?_⟩
  · intro s g h
    unfold cleaned_of
    rw [h]
  · intro cell ft g h
    have hcl : cleaned_of ft = some (pyStrip g) := by
      unfold cleaned_of
      rw [h]
    simp only [clean_cell_core, hcl]
    exact mapParaText_mathRewrite cell.paragraphs (pyStrip g)

/-- Witness for C6's amended pattern at a concrete matching string. -/
theorem c6_amended_witness :
    math_inline_match " $x$" = some "x" ∧ InlineShape " $x$" "x" :=
  ⟨by decide, (c6_amended_inline_pattern.1 " $x$" "x").mp (by decide)⟩

/-- C7: a cell whose full text matches neither pattern and starts with `=`
keeps its text content, while every paragraph is left-aligned and every run
gets the fixed-width font Consolas at 10 points. -/
theorem c7_eq_branch_formatting (cell : Cell)
    (h1 : cleaned_of (cellFullText cell) = none)
    (h2 : pyStartsWith (cellFullText cell) "=" = true) :
    (clean_cell cell).paragraphs.map paraText =
      cell.paragraphs.map paraText ∧
    ∀ p ∈ (clean_cell cell).paragraphs,
      p.alignment = some Alignment.left ∧
      ∀ r ∈ p.runs, r.font.name = some "Consolas" ∧ r.font.size = some 10 := by
  have hcc : clean_cell cell = ⟨cell.paragraphs.map eqFormatP⟩ := by
    simp [clean_cell, clean_cell_core, h1, h2]
  rw [hcc]
  constructor
  · exact mapParaText_eqFormat cell.paragraphs
  · intro p hp
    simp only at hp
    obtain ⟨q, hq, rfl⟩ := List.mem_map.mp hp
    refine ⟨rfl, ?_⟩
    intro r hr
    simp only [eqFormatP] at hr
    obtain ⟨r0, hr0, rfl⟩ := List.mem_map.mp hr
    exact ⟨rfl, rfl⟩

/-- Witness for C7 at the cell `"=SUM(A1:A3)"`. -/
theorem c7_witness :
    cleaned_of (cellFullText exCellEq) = none ∧
    pyStartsWith (cellFullText exCellEq) "=" = true ∧
    (clean_cell exCellEq).paragraphs.map paraText =
      exCellEq.paragraphs.map paraText :=
  ⟨by decide, by decide,
   (c7_eq_branch_formatting exCellEq (by decide) (by decide)).1⟩

/-- C8: a cell whose full text matches neither pattern and does not start
with `=` is left entirely unchanged. -/
theorem c8_untouched (cell : Cell)
    (h1 : cleaned_of (cellFullText cell) = none)
    (h2 : pyStartsWith (cellFullText cell) "=" = false) :
    clean_cell cell = cell := by
  simp [clean_cell, clean_cell_core, h1, h2]

/-- Witness for C8 at the cell `"plain text"`. -/
theorem c8_witness :
    cleaned_of (cellFullText exCellPlain) = none ∧
    pyStartsWith (cellFullText exCellPlain) "=" = false ∧
    clean_cell exCellPlain = exCellPlain :=
  ⟨by decide, by decide, c8_untouched exCellPlain (by decide) (by decide)⟩

/-- C9: order preservation.  The preprocessor output is the instrumented
output's projection; removing the inserted lines leaves exactly the
per-line emissions of the input lines, in order; every inserted line is
blank; a per-line emission is the line itself or the line with two spaces
appended; and the cell normalizer maps the table/row/cell grid in place,
preserving all lengths and positions. -/
theorem c9_order_preserved :
    (∀ lines : List String,
      preprocess_markdown lines = (ppAuxT true lines).map Prod.snd ∧
      (ppAuxT true lines).filterMap
        (fun e => if e.1 then none else some e.2) = emitAll lines ∧
      (∀ e ∈ ppAuxT true lines, e.1 = true → e.2 = "")) ∧
    (∀ cur next : String,
      emitLine cur next = cur ∨ emitLine cur next = cur ++ "  ") ∧
    (∀ tables : List Table,
      (clean_table_cells tables).length = tables.length ∧
      ∀ (i : Nat) (t : Table), tables[i]? = some t →
        (clean_table_cells tables)[i]? =
          some ⟨t.rows.map (fun row => row.map clean_cell)⟩ ∧
        (t.rows.map (fun row => row.map clean_cell)).length =
          t.rows.length ∧
        ∀ (jr : Nat) (r : List Cell), t.rows[jr]? = some r →
          (t.rows.map (fun row => row.map clean_cell))[jr]? =
            some (r.map clean_cell) ∧
          (r.map clean_cell).length = r.length ∧
          ∀ (kc : Nat) (c : Cell), r[kc]? = some c →
            (r.map clean_cell)[kc]? = some (clean_cell c)) := by
  refine ⟨fun lines => ⟨ppAux_eq_mapT lines true, ppAuxT_filterMap lines true,
    ppAuxT_sep_blank lines true⟩, emitLine_self_or_append, fun tables => ?_⟩
  constructor
  · simp [clean_table_cells]
  · intro i t ht
    refine ⟨by simp [clean_table_cells, ht], by simp, ?_⟩
    intro jr r hr
    refine ⟨by simp [hr], by simp, ?_⟩
    intro kc c hc
    simp [hc]

/-- Witness for C9 at a concrete one-cell table. -/
theorem c9_witness :
    (([exTable] : List Table)[0]? = some exTable) ∧
    (clean_table_cells [exTable])[0]? =
      some ⟨exTable.rows.map (fun row => row.map clean_cell)⟩ :=
  ⟨by decide, ((c9_order_preserved.2.2 [exTable]).2 0 exTable (by decide)).1⟩

/-- C10: when the converter exits non-zero, the conversion step attempts
the conversion, prints the failure messages, never runs the cell
normalization, exits with status 1, and still unlinks the temporary file;
and on EVERY path (success, converter failure, or a failure inside the cell
normalization) the temporary file is unlinked. -/
theorem c10_converter_failure :
    (∀ env : Env, env.convertExc = some Exc.calledProcessError →
      exec env mainTail = ([Act.convert, Act.printFail, Act.printErr,
        Act.unlink], some (Exc.systemExit 1)) ∧
      Act.cleanCells ∉ (exec env mainTail).1 ∧
      Act.printFail ∈ (exec env mainTail).1 ∧
      exitCodeOf (exec env mainTail).2 = 1 ∧
      Act.unlink ∈ (exec env mainTail).1) ∧
    (∀ env : Env, Act.unlink ∈ (exec env mainTail).1) := by
  constructor
  · intro env h
    have hx : exec env mainTail = ([Act.convert, Act.printFail,
        Act.printErr, Act.unlink], some (Exc.systemExit 1)) := by
      simp [mainTail, exec, actExc, h]
    refine ⟨hx, ?_, ?_, ?_, ?_⟩ <;> rw [hx] <;> decide
  · intro env
    exact exec_finally_unlink env _ _

/-- Witness for C10 in the environment where the converter fails. -/
theorem c10_witness :
    envFail.convertExc = some Exc.calledProcessError ∧
    exec envFail mainTail = ([Act.convert, Act.printFail, Act.printErr,
      Act.unlink], some (Exc.systemExit 1)) :=
  ⟨rfl, (c10_converter_failure.1 envFail rfl).1⟩

end Md2docx
